import Mathlib

/-!
Shallow embedding of the grid-search optimizer
(`research/optimizer.py`, class `Optimizer`): parameter-progression
generation, pair building, the sweep over pairs, metric-matrix
extraction, and the derived analytics (mean/median return, equal-weight
combination).  Python numbers are modelled exactly by rationals,
distinguishing `int` from `float` where the code branches on
`isinstance(start, int)`.
-/

deriving instance DecidableEq for Except

namespace Optimizer

/-- A Python scalar number: either an `int` or a `float` (modelled exactly
as a rational). -/
inductive PyNum where
  | i (n : ℤ)
  | f (q : ℚ)
deriving DecidableEq, Repr

/-- Numeric value of a Python scalar. -/
def PyNum.toQ : PyNum → ℚ
  | .i n => (n : ℚ)
  | .f q => q

/-- One element of a parameter-spec tuple: a scalar number, an explicit
sequence of candidate values, or a string (used as the mode selector). -/
inductive SpecElem where
  | num (v : PyNum)
  | seq (l : List PyNum)
  | str (s : String)
deriving DecidableEq, Repr

/-- Python `int(x)`: truncation toward zero. -/
def py_int (q : ℚ) : ℤ := if 0 ≤ q then ⌊q⌋ else -⌊-q⌋

/-- Python `int(x)` applied to a scalar: the identity on ints, truncation
on floats (`tuple(int(i) for i in _t)` in `progression`). -/
def pyToInt : PyNum → PyNum
  | .i n => .i n
  | .f q => .i (py_int q)

/-- Python `round(q, 5)`: round to 5 decimal places, ties to even
(round half to even), modelled on the exact rational value. -/
def py_round5 (q : ℚ) : ℚ :=
  let y := q * 100000
  let n : ℤ :=
    if y - ⌊y⌋ < 1 / 2 then ⌊y⌋
    else if 1 / 2 < y - ⌊y⌋ then ⌊y⌋ + 1
    else if ⌊y⌋ % 2 = 0 then ⌊y⌋ else ⌊y⌋ + 1
  (n : ℚ) / 100000

/-- Python `a * b` on scalars: `int` only when both operands are ints. -/
def pyNumMul (a b : PyNum) : PyNum :=
  match a, b with
  | .i m, .i n => .i (m * n)
  | _, _ => .f (a.toQ * b.toQ)

/-- Python `a + b` on scalars: `int` only when both operands are ints. -/
def pyNumAdd (a b : PyNum) : PyNum :=
  match a, b with
  | .i m, .i n => .i (m + n)
  | _, _ => .f (a.toQ + b.toQ)

/-- Python `a ** k` for a scalar base and nonnegative integer exponent:
stays `int` for an `int` base. -/
def pyNumPow (a : PyNum) (k : ℕ) : PyNum :=
  match a with
  | .i n => .i (n ^ k)
  | .f q => .f (q ^ k)

/-- Python `round(x, 5)` on a scalar: `round` returns the int unchanged
for an int argument, and rounds a float. -/
def pyRound5 : PyNum → PyNum
  | .i n => .i n
  | .f q => .f (py_round5 q)

/-- Errors raised during `Optimizer` construction.  The spec groups all
of them under the name `ConfigurationError`: `wrongParameter` is the
`ValueError` for a spec tuple of bad length, `wrongMode` the `ValueError`
for an unknown progression mode, `assertionFailed` the `assert pairs or
(sp_1 and sp_2)` failure, and `typeError` stands for the `TypeError`
Python would raise when a non-numeric value reaches the arithmetic. -/
inductive ConfigError where
  | wrongParameter
  | wrongMode
  | assertionFailed
  | typeError
deriving DecidableEq, Repr

/-- Body of `Optimizer.progression` after the tuple has been unpacked
into `(start, step, mode)`.  Mirrors the source order: the
`isinstance(start, Sequence)` check comes first (a sequence start — and in
Python also a string start — is returned unchanged, before the mode is
validated); then the mode is dispatched, and only inside a mode branch is
the arithmetic on `start`/`step` performed (a non-numeric operand there
is the Python `TypeError`). -/
def progressionCore (start step mode : SpecElem) : Except ConfigError SpecElem :=
  match start with
  | .seq l => .ok (.seq l)
  | .str s => .ok (.str s)
  | .num sv =>
    if mode = .str "geo" then
      match step with
      | .num st =>
        let t := (List.range 10).map (fun (i : ℕ) => pyNumMul sv (pyNumPow st i))
        match sv with
        | .i _ => .ok (.seq (t.map pyToInt))
        | .f _ => .ok (.seq t)
      | _ => .error .typeError
    else if mode = .str "lin" then
      match step with
      | .num st =>
        .ok (.seq ((List.range 10).map
          (fun (i : ℕ) => pyRound5 (pyNumAdd sv (pyNumMul st (.i (i : ℤ)))))))
      | _ => .error .typeError
    else .error .wrongMode

/-- `Optimizer.progression(sp)`: a 3-tuple is `(start, step, mode)`, a
2-tuple defaults the mode to `geo`, any other length raises
`ValueError`. -/
def progression (sp : List SpecElem) : Except ConfigError SpecElem :=
  match sp with
  | [start, step, mode] => progressionCore start step mode
  | [start, step] => progressionCore start step (.str "geo")
  | _ => .error .wrongParameter

/-- Length of the value sequence of a successful progression result
(`0` for an error or a non-sequence result). -/
def seqLen : Except ConfigError SpecElem → ℕ
  | .ok (.seq l) => l.length
  | _ => 0

end Optimizer

namespace Optimizer

theorem py_int_intCast (m : ℤ) : py_int ((m : ℚ)) = m := by
  unfold py_int
  split
  · exact Int.floor_intCast m
  · rw [show -((m : ℚ)) = ((-m : ℤ) : ℚ) by push_cast; ring, Int.floor_intCast]
    ring

theorem py_round5_intCast (m : ℤ) : py_round5 ((m : ℚ)) = m := by
  have h1 : ((m : ℚ)) * 100000 = ((m * 100000 : ℤ) : ℚ) := by push_cast; ring
  simp only [py_round5, h1, Int.floor_intCast, sub_self]
  split
  · push_cast; ring
  · next h => exact absurd (by norm_num) h

theorem pyToInt_mul_geo (n : ℤ) (st : PyNum) (i : ℕ) :
    pyToInt (pyNumMul (.i n) (pyNumPow st i)) = .i (py_int ((n : ℚ) * st.toQ ^ i)) := by
  cases st with
  | i k =>
      show PyNum.i (n * k ^ i) = PyNum.i (py_int ((n : ℚ) * ((k : ℚ)) ^ i))
      rw [show ((n : ℚ)) * ((k : ℚ)) ^ i = (((n * k ^ i : ℤ)) : ℚ) by push_cast; ring,
        py_int_intCast]
  | f q => rfl

theorem pyNumMul_float_geo (x : ℚ) (st : PyNum) (i : ℕ) :
    pyNumMul (.f x) (pyNumPow st i) = .f (x * st.toQ ^ i) := by
  cases st with
  | i k =>
      show PyNum.f (x * (((k ^ i : ℤ)) : ℚ)) = PyNum.f (x * ((k : ℚ)) ^ i)
      rw [Int.cast_pow]
  | f q => rfl

theorem pyRound5_lin_toQ (sv st : PyNum) (i : ℕ) :
    (pyRound5 (pyNumAdd sv (pyNumMul st (.i (i : ℤ))))).toQ
      = py_round5 (sv.toQ + st.toQ * (i : ℚ)) := by
  cases sv with
  | i a =>
      cases st with
      | i b =>
          simp only [pyNumMul, pyNumAdd, pyRound5, PyNum.toQ]
          rw [show ((a : ℚ) + (b : ℚ) * (i : ℚ)) = (((a + b * (i : ℤ)) : ℤ) : ℚ) by
            push_cast; ring, py_round5_intCast]
      | f q =>
          simp only [pyNumMul, pyNumAdd, pyRound5, PyNum.toQ]
          norm_cast
  | f x =>
      cases st with
      | i b =>
          simp only [pyNumMul, pyNumAdd, pyRound5, PyNum.toQ]
          norm_cast
      | f q =>
          simp only [pyNumMul, pyNumAdd, pyRound5, PyNum.toQ]
          norm_cast

/-- C1: for every ParameterSpec with a scalar start, `progression` returns a
sequence of exactly 10 values; in geometric mode element i equals
start × step^i, with every element cast to int (truncation) when start is
of integral type; in linear mode element i equals round(start + step × i, 5);
in particular geo (100, 1.25) yields 100 at index 0 and 125 at index 1, and
lin (0.1, 0.1) yields [0.1, 0.2, ..., 1.0]. -/
theorem C1_progression :
    (∀ (n : ℤ) (st : PyNum), progression [.num (.i n), .num st, .str "geo"]
        = .ok (.seq ((List.range 10).map
            (fun (i : ℕ) => .i (py_int ((n : ℚ) * st.toQ ^ i)))))) ∧
    (∀ (x : ℚ) (st : PyNum), progression [.num (.f x), .num st, .str "geo"]
        = .ok (.seq ((List.range 10).map (fun (i : ℕ) => .f (x * st.toQ ^ i))))) ∧
    (∀ (sv st : PyNum), progression [.num sv, .num st, .str "lin"]
        = .ok (.seq ((List.range 10).map
            (fun (i : ℕ) => pyRound5 (pyNumAdd sv (pyNumMul st (.i (i : ℤ)))))))) ∧
    (∀ (sv st : PyNum) (i : ℕ),
        (pyRound5 (pyNumAdd sv (pyNumMul st (.i (i : ℤ))))).toQ
          = py_round5 (sv.toQ + st.toQ * (i : ℚ))) ∧
    (∀ (sv st : PyNum), seqLen (progression [.num sv, .num st, .str "geo"]) = 10
        ∧ seqLen (progression [.num sv, .num st, .str "lin"]) = 10
        ∧ seqLen (progression [.num sv, .num st]) = 10) ∧
    progression [.num (.i 100), .num (.f (5/4)), .str "geo"]
      = .ok (.seq [.i 100, .i 125, .i 156, .i 195, .i 244, .i 305, .i 381,
                   .i 476, .i 596, .i 745]) ∧
    progression [.num (.f (1/10)), .num (.f (1/10)), .str "lin"]
      = .ok (.seq [.f (1/10), .f (2/10), .f (3/10), .f (4/10), .f (5/10),
                   .f (6/10), .f (7/10), .f (8/10), .f (9/10), .f 1]) := by
  refine ⟨?_, ?_, ?_, ?_, ?_, ?_, ?_⟩
  · intro n st
    simp only [progression, progressionCore, reduceIte, List.map_map]
    exact congrArg _ (congrArg _
      (List.map_congr_left (fun i _ => pyToInt_mul_geo n st i)))
  · intro x st
    simp only [progression, progressionCore, reduceIte]
    exact congrArg _ (congrArg _
      (List.map_congr_left (fun i _ => pyNumMul_float_geo x st i)))
  · intro sv st
    cases sv <;>
      simp only [progression, progressionCore, reduceIte, String.reduceEq,
        SpecElem.str.injEq]
  · exact pyRound5_lin_toQ
  · intro sv st
    refine ⟨?_, ?_, ?_⟩ <;> cases sv <;>
      simp [progression, progressionCore, seqLen]
  · simp only [progression, progressionCore, List.range_succ, List.range_zero,
      List.map_append, List.map_cons, List.map_nil, List.nil_append,
      List.cons_append, pyNumMul, pyNumPow, PyNum.toQ, pyToInt, py_int,
      reduceIte]
    norm_num
  · simp only [progression, progressionCore, List.range_succ, List.range_zero,
      List.map_append, List.map_cons, List.map_nil, List.nil_append,
      List.cons_append, pyNumMul, pyNumAdd, pyRound5, PyNum.toQ, py_round5,
      reduceIte, String.reduceEq, SpecElem.str.injEq]
    norm_num

/-- C9: for every ParameterSpec of length 2 or 3 whose start element is an
explicit sequence, `progression` returns that sequence unchanged, ignoring
the step and mode elements entirely. -/
theorem C9_sequence_start :
    ∀ (l : List PyNum) (b c : SpecElem),
      progression [.seq l, b, c] = .ok (.seq l) ∧
      progression [.seq l, b] = .ok (.seq l) :=
  fun _ _ _ => ⟨rfl, rfl⟩

/-- `Optimizer.get_pairs(sp_1, sp_2)`: the comprehension
`[(p_1, p_2) for p_1 in sp_1 for p_2 in sp_2]`. -/
def get_pairs {α β : Type} (sp_1 : List α) (sp_2 : List β) : List (α × β) :=
  sp_1.flatMap (fun p_1 => sp_2.map (fun p_2 => (p_1, p_2)))

theorem get_pairs_eq_product {α β : Type} (l1 : List α) (l2 : List β) :
    get_pairs l1 l2 = l1 ×ˢ l2 := rfl

theorem get_pairs_index {α β : Type} :
    ∀ (l1 : List α) (l2 : List β) (i j : ℕ)
      (hi : i < l1.length) (hj : j < l2.length),
      (get_pairs l1 l2).get? (i * l2.length + j)
        = some (l1.get ⟨i, hi⟩, l2.get ⟨j, hj⟩) := by
  intro l1
  induction l1 with
  | nil => intro l2 i j hi hj; exact absurd hi (Nat.not_lt_zero i)
  | cons a t ih =>
      intro l2 i j hi hj
      cases i with
      | zero =>
          have hjm : j < (l2.map (fun p_2 => (a, p_2))).length := by
            simpa using hj
          rw [show (get_pairs (a :: t) l2)
                = l2.map (fun p_2 => (a, p_2)) ++ get_pairs t l2 from rfl]
          rw [Nat.zero_mul, Nat.zero_add, List.get?_append hjm, List.get?_map,
            List.get?_eq_get hj]
          rfl
      | succ i' =>
          rw [show (get_pairs (a :: t) l2)
                = l2.map (fun p_2 => (a, p_2)) ++ get_pairs t l2 from rfl]
          have hlen : (l2.map (fun p_2 => (a, p_2))).length ≤
              (i' + 1) * l2.length + j := by
            simp only [List.length_map]
            calc l2.length ≤ (i' + 1) * l2.length := by
                  have := Nat.succ_le_succ (Nat.zero_le i')
                  simpa using Nat.mul_le_mul_right l2.length this
              _ ≤ (i' + 1) * l2.length + j := Nat.le_add_right _ _
          rw [List.get?_append_right hlen]
          have harith : (i' + 1) * l2.length + j - (l2.map (fun p_2 => (a, p_2))).length
              = i' * l2.length + j := by
            simp only [List.length_map]
            have : (i' + 1) * l2.length = i' * l2.length + l2.length := by ring
            omega
          rw [harith]
          exact ih l2 i' j (Nat.lt_of_succ_lt_succ hi) hj

/-- C2: for any two progressions of lengths m and n, `get_pairs` returns
exactly m × n pairs, in progression-1-major order (the entry at position
i·n + j is the pair of element i of progression 1 with element j of
progression 2), with no duplicates when both inputs have distinct
elements. -/
theorem C2_get_pairs :
    (∀ {α β : Type} (l1 : List α) (l2 : List β),
        (get_pairs l1 l2).length = l1.length * l2.length) ∧
    (∀ {α β : Type} (l1 : List α) (l2 : List β) (i j : ℕ)
        (hi : i < l1.length) (hj : j < l2.length),
        (get_pairs l1 l2).get? (i * l2.length + j)
          = some (l1.get ⟨i, hi⟩, l2.get ⟨j, hj⟩)) ∧
    (∀ {α β : Type} (l1 : List α) (l2 : List β),
        l1.Nodup → l2.Nodup → (get_pairs l1 l2).Nodup) := by
  refine ⟨?_, ?_, ?_⟩
  · intro α β l1 l2
    rw [get_pairs_eq_product]
    exact List.length_product l1 l2
  · exact fun l1 l2 => get_pairs_index l1 l2
  · intro α β l1 l2 h1 h2
    rw [get_pairs_eq_product]
    exact h1.product h2

/-- Witness for C2 at concrete input: the 2 × 3 grid. -/
theorem C2_get_pairs_witness :
    (get_pairs [1, 2] [3, 4, 5] : List (ℕ × ℕ)).length = 2 * 3 ∧
    (get_pairs [1, 2] [3, 4, 5]).get? (1 * 3 + 2) = some (2, 5) ∧
    (get_pairs [1, 2] [3, 4, 5] : List (ℕ × ℕ)).Nodup :=
  ⟨C2_get_pairs.1 [1, 2] [3, 4, 5],
   (C2_get_pairs.2.1 [1, 2] [3, 4, 5] 1 2 (by decide) (by decide)).trans (by decide),
   C2_get_pairs.2.2 [1, 2] [3, 4, 5] (by decide) (by decide)⟩

/-- A parameter pair, the key of all per-pair stores. -/
abbrev Pair := PyNum × PyNum

/-- A summary-statistics series: raw metric name to scalar value. -/
abbrev Stats := List (String × ℚ)

/-- The per-pair backtest loop of `Optimizer.__init__`
(`for p in self.pairs: self.calc(p[0], p[1])`): one invocation of the
(abstracted) backtest pipeline per pair, in order, keyed by the pair. -/
def sweep (backtest : Pair → Stats) (pairs : List Pair) : List (Pair × Stats) :=
  pairs.map (fun p => (p, backtest p))

/-- Python truthiness of the optional `pairs` argument: `None` and the
empty sequence are falsy. -/
def truthyPairs : Option (List Pair) → Bool
  | none => false
  | some l => !l.isEmpty

/-- The pair-grid selection in `Optimizer.__init__`:
`assert pairs or (sp_1 and sp_2)` followed by
`self.pairs = pairs or self.get_pairs(self.progression(sp_1),
self.progression(sp_2))`.  A successful progression that is a string (in
Python a `str` is a `Sequence`) cannot be paired with numeric pairs in
this model and maps to `typeError`. -/
def opt_pairs (sp_1 sp_2 : List SpecElem) (pairs : Option (List Pair)) :
    Except ConfigError (List Pair) :=
  if truthyPairs pairs then .ok (pairs.getD [])
  else if sp_1.isEmpty || sp_2.isEmpty then .error .assertionFailed
  else match progression sp_1 with
    | .error e => .error e
    | .ok s1 =>
      match progression sp_2 with
      | .error e => .error e
      | .ok s2 =>
        match s1, s2 with
        | .seq l1, .seq l2 => .ok (get_pairs l1 l2)
        | _, _ => .error .typeError

/-- `Optimizer.__init__` up to the backtest loop: choose the pair grid,
then run one backtest per pair in order. -/
def optimizer_run (backtest : Pair → Stats) (sp_1 sp_2 : List SpecElem)
    (pairs : Option (List Pair)) : Except ConfigError (List (Pair × Stats)) :=
  (opt_pairs sp_1 sp_2 pairs).map (sweep backtest)

/-- The pairs whose backtests a run invoked (none when construction
raised before the loop). -/
def evaluated_pairs (r : Except ConfigError (List (Pair × Stats))) : List Pair :=
  match r with
  | .ok l => l.map (fun e => e.1)
  | .error _ => []

theorem progression_wrong_length (sp : List SpecElem)
    (h2 : sp.length ≠ 2) (h3 : sp.length ≠ 3) :
    progression sp = .error .wrongParameter := by
  match sp, h2, h3 with
  | [], _, _ => rfl
  | [a], _, _ => rfl
  | [a, b], h2, _ => exact absurd rfl h2
  | [a, b, c], _, h3 => exact absurd rfl h3
  | a :: b :: c :: d :: tl, _, _ => rfl

theorem progression_wrong_mode (v : PyNum) (st m : SpecElem)
    (h1 : m ≠ .str "geo") (h2 : m ≠ .str "lin") :
    progression [.num v, st, m] = .error .wrongMode := by
  show progressionCore (.num v) st m = .error .wrongMode
  simp only [progressionCore]
  rw [if_neg h1, if_neg h2]

theorem opt_pairs_none_eq (sp_1 sp_2 : List SpecElem) :
    opt_pairs sp_1 sp_2 none =
      if sp_1.isEmpty || sp_2.isEmpty then .error .assertionFailed
      else match progression sp_1 with
        | .error e => .error e
        | .ok s1 =>
          match progression sp_2 with
          | .error e => .error e
          | .ok s2 =>
            match s1, s2 with
            | .seq l1, .seq l2 => .ok (get_pairs l1 l2)
            | _, _ => .error .typeError := rfl

theorem opt_pairs_error_of_sp1 (sp_1 sp_2 : List SpecElem)
    (h : progression sp_1 = .error .wrongMode ∨
         progression sp_1 = .error .wrongParameter) :
    ∃ e, opt_pairs sp_1 sp_2 none = .error e := by
  rw [opt_pairs_none_eq]
  by_cases hemp : sp_1.isEmpty || sp_2.isEmpty
  · rw [if_pos hemp]; exact ⟨_, rfl⟩
  · rw [if_neg hemp]
    rcases h with h | h <;> rw [h] <;> exact ⟨_, rfl⟩

theorem opt_pairs_error_of_sp2 (sp_1 sp_2 : List SpecElem)
    (h : progression sp_2 = .error .wrongMode ∨
         progression sp_2 = .error .wrongParameter) :
    ∃ e, opt_pairs sp_1 sp_2 none = .error e := by
  rw [opt_pairs_none_eq]
  by_cases hemp : sp_1.isEmpty || sp_2.isEmpty
  · rw [if_pos hemp]; exact ⟨_, rfl⟩
  · rw [if_neg hemp]
    cases hp : progression sp_1 with
    | error e => exact ⟨e, rfl⟩
    | ok s1 =>
        rcases h with h | h <;> rw [h] <;> exact ⟨_, rfl⟩

/-- C3: an explicit non-empty pairs list supplied to the constructor is
used as-is: exactly those pairs are evaluated, one backtest per listed
pair in list order, and progression generation from sp_1 and sp_2 is
skipped entirely (the result does not depend on sp_1 or sp_2, even
malformed ones); in particular pairs = [(1, 2), (3, 4)] evaluates exactly
those two pairs. -/
theorem C3_explicit_pairs :
    (∀ (b : Pair → Stats) (sp_1 sp_2 : List SpecElem) (ps : List Pair),
        ps ≠ [] →
        optimizer_run b sp_1 sp_2 (some ps)
            = .ok (ps.map (fun p => (p, b p))) ∧
        evaluated_pairs (optimizer_run b sp_1 sp_2 (some ps)) = ps) ∧
    (∀ (b : Pair → Stats) (sp_1 sp_2 : List SpecElem),
        evaluated_pairs (optimizer_run b sp_1 sp_2
            (some [(.i 1, .i 2), (.i 3, .i 4)]))
          = [(.i 1, .i 2), (.i 3, .i 4)]) := by
  have key : ∀ (b : Pair → Stats) (sp_1 sp_2 : List SpecElem) (ps : List Pair),
      ps ≠ [] →
      optimizer_run b sp_1 sp_2 (some ps) = .ok (ps.map (fun p => (p, b p))) := by
    intro b sp_1 sp_2 ps hne
    have ht : truthyPairs (some ps) = true := by
      simp [truthyPairs, List.isEmpty_iff, hne]
    simp [optimizer_run, opt_pairs, ht, sweep, Except.map]
  refine ⟨fun b sp_1 sp_2 ps hne => ⟨key b sp_1 sp_2 ps hne, ?_⟩,
    fun b sp_1 sp_2 => ?_⟩
  · rw [key b sp_1 sp_2 ps hne]
    show (ps.map (fun p => (p, b p))).map (fun e => e.1) = ps
    rw [List.map_map]
    exact (List.map_congr_left fun p _ => rfl).trans (List.map_id ps)
  · rw [key b sp_1 sp_2 _ (by simp)]
    rfl

/-- Witness for C3: with deliberately malformed specs and an explicit
two-pair list, exactly those two pairs are evaluated. -/
theorem C3_explicit_pairs_witness :
    evaluated_pairs (optimizer_run (fun _ => []) [.num (.i 7)] []
        (some [(.i 1, .i 2), (.i 3, .i 4)]))
      = [(.i 1, .i 2), (.i 3, .i 4)] :=
  (C3_explicit_pairs.1 (fun _ => []) [.num (.i 7)] []
    [(.i 1, .i 2), (.i 3, .i 4)] (by simp)).2

/-- C10: an explicit pairs argument that is an empty sequence does not
trigger the bypass: the run is identical to passing no pairs at all, and
the cross product of the generated progressions is evaluated; concretely,
explicit-sequence specs [1, 2] and [3, 4] with empty pairs yield the full
2 × 2 grid. -/
theorem C10_empty_pairs :
    (∀ (b : Pair → Stats) (sp_1 sp_2 : List SpecElem),
        optimizer_run b sp_1 sp_2 (some []) = optimizer_run b sp_1 sp_2 none) ∧
    opt_pairs [.seq [.i 1, .i 2], .num (.f 1)] [.seq [.i 3, .i 4], .num (.f 1)]
        (some [])
      = .ok [(.i 1, .i 3), (.i 1, .i 4), (.i 2, .i 3), (.i 2, .i 4)] :=
  ⟨fun _ _ _ => rfl, rfl⟩

/-- C6: a spec tuple of length other than 2 or 3, or a length-3 spec with
a scalar start and an unknown mode, makes construction fail with a
configuration error (whichever argument position holds it), and whenever
construction fails no backtest is ever evaluated. -/
theorem C6_config_errors :
    (∀ sp : List SpecElem, sp.length ≠ 2 → sp.length ≠ 3 →
        progression sp = .error .wrongParameter) ∧
    (∀ (v : PyNum) (st m : SpecElem), m ≠ .str "geo" → m ≠ .str "lin" →
        progression [.num v, st, m] = .error .wrongMode) ∧
    (∀ (sp_1 sp_2 : List SpecElem), sp_1.length ≠ 2 → sp_1.length ≠ 3 →
        ∃ e, opt_pairs sp_1 sp_2 none = .error e) ∧
    (∀ (sp_1 sp_2 : List SpecElem), sp_2.length ≠ 2 → sp_2.length ≠ 3 →
        ∃ e, opt_pairs sp_1 sp_2 none = .error e) ∧
    (∀ (sp_2 : List SpecElem) (v : PyNum) (st m : SpecElem),
        m ≠ .str "geo" → m ≠ .str "lin" →
        ∃ e, opt_pairs [.num v, st, m] sp_2 none = .error e) ∧
    (∀ (sp_1 : List SpecElem) (v : PyNum) (st m : SpecElem),
        m ≠ .str "geo" → m ≠ .str "lin" →
        ∃ e, opt_pairs sp_1 [.num v, st, m] none = .error e) ∧
    (∀ (b : Pair → Stats) (sp_1 sp_2 : List SpecElem)
        (pairs : Option (List Pair)) (e : ConfigError),
        opt_pairs sp_1 sp_2 pairs = .error e →
        optimizer_run b sp_1 sp_2 pairs = .error e ∧
        evaluated_pairs (optimizer_run b sp_1 sp_2 pairs) = []) := by
  refine ⟨progression_wrong_length, progression_wrong_mode, ?_, ?_, ?_, ?_, ?_⟩
  · intro sp_1 sp_2 h2 h3
    exact opt_pairs_error_of_sp1 sp_1 sp_2
      (Or.inr (progression_wrong_length sp_1 h2 h3))
  · intro sp_1 sp_2 h2 h3
    exact opt_pairs_error_of_sp2 sp_1 sp_2
      (Or.inr (progression_wrong_length sp_2 h2 h3))
  · intro sp_2 v st m h1 h2
    exact opt_pairs_error_of_sp1 _ sp_2
      (Or.inl (progression_wrong_mode v st m h1 h2))
  · intro sp_1 v st m h1 h2
    exact opt_pairs_error_of_sp2 sp_1 _
      (Or.inl (progression_wrong_mode v st m h1 h2))
  · intro b sp_1 sp_2 pairs e h
    constructor
    · simp [optimizer_run, h, Except.map]
    · simp [optimizer_run, h, Except.map, evaluated_pairs]

/-- Witness for C6: a length-4 spec and mode "bogus" at concrete inputs,
and no backtest runs on a failing construction. -/
theorem C6_config_errors_witness :
    progression [.num (.i 1), .num (.i 2), .num (.i 3), .num (.i 4)]
        = .error .wrongParameter ∧
    progression [.num (.i 1), .num (.i 2), .str "bogus"] = .error .wrongMode ∧
    (∃ e, opt_pairs [.num (.i 1), .num (.i 2), .str "bogus"]
        [.num (.i 1), .num (.i 2)] none = .error e) ∧
    (optimizer_run (fun _ => []) [.num (.i 1), .num (.i 2), .num (.i 3), .num (.i 4)]
        [.num (.i 1), .num (.i 2)] none = .error .wrongParameter ∧
     evaluated_pairs (optimizer_run (fun _ => [])
        [.num (.i 1), .num (.i 2), .num (.i 3), .num (.i 4)]
        [.num (.i 1), .num (.i 2)] none) = []) :=
  ⟨C6_config_errors.1 _ (by decide) (by decide),
   C6_config_errors.2.1 (.i 1) (.num (.i 2)) (.str "bogus") (by decide) (by decide),
   C6_config_errors.2.2.2.2.1 [.num (.i 1), .num (.i 2)] (.i 1) (.num (.i 2))
     (.str "bogus") (by decide) (by decide),
   C6_config_errors.2.2.2.2.2.2 (fun _ => []) _ _ none .wrongParameter rfl⟩

/-- Python `str.lower()`, character by character. -/
def py_lower (s : List Char) : List Char := s.map Char.toLower

/-- Python `str.replace(a, b)` for one-character pattern and replacement:
replaces every occurrence of the character. -/
def py_replace (a b : Char) (s : List Char) : List Char :=
  s.map (fun c => if c = a then b else c)

/-- Python `str.replace` with a one-character pattern and an empty
replacement: removes every occurrence of the character. -/
def py_remove (a : Char) (s : List Char) : List Char :=
  s.filter (fun c => c ≠ a)

/-- The metric-name normalization of `Optimizer.extract_stats`: lower the
name, replace each space with an underscore, replace each slash with an
underscore, then remove each dot. -/
def field_trans (s : String) : String :=
  ⟨py_remove '.' (py_replace '/' '_' (py_replace ' ' '_' (py_lower s.data)))⟩

/-- The normalization exactly as claim C4 states it (the claim-side
definition for comparison): lower-case, spaces to underscores, and both
"/" and "." characters removed. -/
def claimed_normalize (s : String) : String :=
  ⟨py_remove '.' (py_remove '/' (py_replace ' ' '_' (py_lower s.data)))⟩

theorem py_lower_cons (c : Char) (t : List Char) :
    py_lower (c :: t) = c.toLower :: py_lower t := rfl

theorem py_replace_cons (a b c : Char) (t : List Char) :
    py_replace a b (c :: t) = (if c = a then b else c) :: py_replace a b t := rfl

theorem py_remove_cons (a c : Char) (t : List Char) :
    py_remove a (c :: t)
      = if c = a then py_remove a t else c :: py_remove a t := by
  by_cases h : c = a <;> simp [py_remove, List.filter_cons, h]

theorem field_trans_chars_eq (l : List Char) :
    py_remove '.' (py_replace '/' '_' (py_replace ' ' '_' (py_lower l)))
      = l.filterMap (fun c =>
          if c.toLower = '.' then none
          else if c.toLower = ' ' ∨ c.toLower = '/' then some '_'
          else some c.toLower) := by
  induction l with
  | nil => rfl
  | cons c t ih =>
      rw [py_lower_cons, py_replace_cons, py_replace_cons, py_remove_cons,
        List.filterMap_cons]
      by_cases h1 : c.toLower = ' '
      · simp [h1, ih]
      · by_cases h2 : c.toLower = '/'
        · simp [h1, h2, ih]
        · by_cases h3 : c.toLower = '.'
          · simp [h1, h2, h3, ih]
          · simp [h1, h2, h3, ih]

/-- C4 counterexample: on the raw metric name "a/b" the code produces
"a_b" (slash replaced by an underscore) while the claimed normalization
removes the slash, producing "ab"; the two disagree. -/
theorem C4_counterexample :
    field_trans "a/b" = "a_b" ∧ claimed_normalize "a/b" = "ab" ∧
    field_trans "a/b" ≠ claimed_normalize "a/b" := by
  refine ⟨by decide, by decide, by decide⟩

/-- C4 (amended): the normalized identifier equals the raw name
lower-cased with every space and every "/" replaced by an underscore and
every "." removed — a single character-wise pass. -/
theorem C4_field_trans_amended :
    ∀ s : String, field_trans s
      = ⟨s.data.filterMap (fun c =>
          if c.toLower = '.' then none
          else if c.toLower = ' ' ∨ c.toLower = '/' then some '_'
          else some c.toLower)⟩ :=
  fun s => congrArg String.mk (field_trans_chars_eq s.data)

/-- Arithmetic mean of a list of values (pandas `mean` of a series
without missing values; `0/0 = 0` for the empty series stands in for
the pandas NaN). -/
def arith_mean (l : List ℚ) : ℚ := l.sum / l.length

/-- `Optimizer.combine`: `self.returns.mean(axis=1)`.  The wide returns
frame is modelled time-major: one inner list per time step holding the
simple returns of all pair columns at that step, so `mean(axis=1)` is the
mean of each inner list. -/
def combine (returns : List (List ℚ)) : List ℚ :=
  returns.map (fun row => row.sum / row.length)

/-- pandas `Series.cumprod()` with explicit accumulator: element i is the
product of elements 0..i of the input. -/
def cumprodFrom (acc : ℚ) : List ℚ → List ℚ
  | [] => []
  | x :: xs => (acc * x) :: cumprodFrom (acc * x) xs

/-- `Optimizer.combine_paths`: `(self.combine + 1).cumprod()`. -/
def combine_paths (returns : List (List ℚ)) : List ℚ :=
  cumprodFrom 1 ((combine returns).map (fun r => r + 1))

theorem cumprodFrom_get? (l : List ℚ) :
    ∀ (acc : ℚ) (i : ℕ), i < l.length →
      (cumprodFrom acc l).get? i = some (acc * (l.take (i + 1)).prod) := by
  induction l with
  | nil => intro acc i hi; exact absurd hi (Nat.not_lt_zero i)
  | cons x xs ih =>
      intro acc i hi
      cases i with
      | zero => simp [cumprodFrom]
      | succ i' =>
          have hi' : i' < xs.length := Nat.lt_of_succ_lt_succ hi
          show (cumprodFrom (acc * x) xs).get? i' = _
          rw [ih (acc * x) i' hi']
          simp [List.take_succ_cons, List.prod_cons, mul_assoc]

/-- C7: the combined-strategy return at each time step is the equal-weight
arithmetic mean of the simple returns of all pairs at that step, and
`combine_paths` is the running cumulative product of (1 + combined
return) starting from 1; for a combined-return series [0, 0.1, -0.05] the
paths are [1, 1.1, 1.045]. -/
theorem C7_combine_paths :
    (∀ (returns : List (List ℚ)), combine returns = returns.map arith_mean) ∧
    (∀ (returns : List (List ℚ)) (i : ℕ), i < (combine returns).length →
        (combine_paths returns).get? i
          = some ((((combine returns).take (i + 1)).map (fun r => r + 1)).prod)) ∧
    combine [[0], [1/10], [-(1/20)]] = [0, 1/10, -(1/20)] ∧
    combine_paths [[0], [1/10], [-(1/20)]] = [1, 11/10, 209/200] := by
  refine ⟨fun returns => rfl, fun returns i hi => ?_, ?_, ?_⟩
  · have hlen : i < ((combine returns).map (fun r => r + 1)).length := by
      simpa using hi
    rw [combine_paths, cumprodFrom_get? _ 1 i hlen, one_mul, List.map_take]
  · simp [combine]
  · simp [combine_paths, combine, cumprodFrom]
    norm_num

/-- Witness for C7 at a concrete input: the second path element of the
series [0, 0.1, -0.05] as the cumulative product of 1 and 1.1. -/
theorem C7_combine_paths_witness :
    (combine_paths [[0], [1/10], [-(1/20)]]).get? 1
      = some (((((combine [[0], [1/10], [-(1/20)]])).take 2).map
          (fun r => r + 1)).prod) :=
  C7_combine_paths.2.1 [[0], [1/10], [-(1/20)]] 1 (by simp [combine])

/-- pandas `Series.median()`: the middle element of the sorted values for
an odd count, the average of the two middle elements for an even count
(`0` stands in for the NaN of an empty series). -/
def pd_median (l : List ℚ) : ℚ :=
  let s := List.insertionSort (fun a b => a ≤ b) l
  if l.length % 2 = 1 then s.getD (l.length / 2) 0
  else (s.getD (l.length / 2 - 1) 0 + s.getD (l.length / 2) 0) / 2

/-- `Optimizer.return_mean`:
`annual_return` mean of column means.  The annual-return matrix
is modelled column-major (a pandas frame is a dict of columns), so
`df.mean()` is the list of column means and the second `.mean()` averages
those. -/
def return_mean (cols : List (List ℚ)) : ℚ := arith_mean (cols.map arith_mean)

/-- `Optimizer.return_median`:
the stacked `annual_return` matrix median — the median of all cells
of the matrix flattened into one collection (the median is insensitive to
the stacking order since it sorts). -/
def return_median (cols : List (List ℚ)) : ℚ := pd_median cols.flatten

/-- C8: `return_mean` is the mean along one axis of the annual-return
matrix followed by the mean of that result, `return_median` is the global
median of the flattened matrix, and the two diverge on the non-uniform
grid [[0, 0], [0, 1]] (mean-of-means 1/4 versus global median 0). -/
theorem C8_mean_median_diverge :
    (∀ (cols : List (List ℚ)), return_mean cols = arith_mean (cols.map arith_mean)) ∧
    (∀ (cols : List (List ℚ)), return_median cols = pd_median cols.flatten) ∧
    return_mean [[0, 0], [0, 1]] = 1/4 ∧
    return_median [[0, 0], [0, 1]] = 0 ∧
    return_mean [[0, 0], [0, 1]] ≠ return_median [[0, 0], [0, 1]] := by
  have hm : return_mean [[0, 0], [0, 1]] = 1/4 := by
    simp [return_mean, arith_mean]
    norm_num
  have hd : return_median [[0, 0], [0, 1]] = 0 := by
    norm_num [return_median, pd_median, List.insertionSort, List.orderedInsert]
  exact ⟨fun _ => rfl, fun _ => rfl, hm, hd, by rw [hm, hd]; norm_num⟩

/-- Lookup of a metric in a summary-statistics series
(`stats_table[field]`; the series index is assumed label-unique, as a
pandas stats table is). -/
def series_get (st : Stats) (f : String) : Option ℚ :=
  (st.find? (fun e => decide (e.1 = f))).map (fun e => e.2)

/-- A metric matrix: rows keyed by the evaluated pair
(`self._table[name].loc[pair]`). -/
abbrev MMatrix := List (Pair × ℚ)

/-- `df.loc[pair] = value`: update the row when the label exists, append
it otherwise (pandas label-based enlargement). -/
def row_set (m : MMatrix) (p : Pair) (v : ℚ) : MMatrix :=
  if m.any (fun e => decide (e.1 = p)) then
    m.map (fun e => if e.1 = p then (p, v) else e)
  else m ++ [(p, v)]

/-- `df.loc[pair]` as a lookup. -/
def row_get (m : MMatrix) (p : Pair) : Option ℚ :=
  (m.find? (fun e => decide (e.1 = p))).map (fun e => e.2)

/-- The `self._table` dict: normalized metric name to metric matrix. -/
abbrev MTable := List (String × MMatrix)

/-- `self._table[key].loc[pair] = value`: rewrite the named entry in
place (the key always exists when `extract_stats` writes). -/
def table_set (t : MTable) (k : String) (p : Pair) (v : ℚ) : MTable :=
  t.map (fun e => if e.1 = k then (e.1, row_set e.2 p v) else e)

/-- Dict lookup in `self._table`. -/
def table_get (t : MTable) (k : String) : Option MMatrix :=
  (t.find? (fun e => decide (e.1 = k))).map (fun e => e.2)

/-- The matrix cell for metric `k` and pair `p`. -/
def cell_get (t : MTable) (k : String) (p : Pair) : Option ℚ :=
  (table_get t k).bind (fun m => row_get m p)

/-- Key list of a Python dict built by comprehension: first-occurrence
order, duplicates collapsed. -/
def pydict_keys : List String → List String
  | [] => []
  | k :: ks => k :: pydict_keys (ks.filter (fun x => decide (x ≠ k)))
termination_by l => l.length
decreasing_by
  simp only [List.length_cons]
  exact Nat.lt_succ_of_le (List.length_filter_le _ ks)

/-- `Optimizer.extract_stats`: the field list is read from the stats
series of the last-evaluated pair (`self.raw_stats[self.pairs[-1]]`);
`self.field_trans` normalizes each name; `self._table` starts with one
empty matrix per normalized name; then for every evaluated pair and every
raw field the scalar is written at row = pair in the matrix of that field
(the inner `for field in self._fields` loop is `write_stats`).
`none` models the exceptions Python would raise (`IndexError` on an empty
grid, `KeyError` on a stats series missing a field). -/
def write_stats (p : Pair) (st : Stats) (rawFields : List String)
    (tbl : MTable) : Option MTable :=
  rawFields.foldlM (fun t2 f => do
    let v ← series_get st f
    pure (table_set t2 (field_trans f) p v)) tbl

/-- `Optimizer.extract_stats`, continued: the outer loop over
`self.raw_stats.items()` with the inner per-field writes factored into
`write_stats`. -/
def extract_stats (raw : List (Pair × Stats)) : Option MTable := do
  let lastEntry ← raw.getLast?
  let rawFields := lastEntry.2.map (fun e => e.1)
  let tableKeys := pydict_keys ((pydict_keys rawFields).map field_trans)
  let init : MTable := tableKeys.map (fun k => (k, ([] : MMatrix)))
  raw.foldlM (fun tbl pst => write_stats pst.1 pst.2 rawFields tbl) init

theorem row_get_cons (e : Pair × ℚ) (t : MMatrix) (q : Pair) :
    row_get (e :: t) q = if e.1 = q then some e.2 else row_get t q := by
  by_cases h : e.1 = q <;> simp [row_get, List.find?, h]

theorem row_get_map_other (m : MMatrix) (p q : Pair) (v : ℚ) (hq : q ≠ p) :
    row_get (m.map (fun x => if x.1 = p then (p, v) else x)) q = row_get m q := by
  induction m with
  | nil => rfl
  | cons x t ih =>
      by_cases hx : x.1 = p
      · rw [List.map_cons, if_pos hx, row_get_cons, row_get_cons,
          if_neg (fun h => hq h.symm), if_neg (fun h => hq (hx ▸ h).symm)]
        exact ih
      · rw [List.map_cons, if_neg hx, row_get_cons, row_get_cons]
        by_cases hxq : x.1 = q
        · rw [if_pos hxq, if_pos hxq]
        · rw [if_neg hxq, if_neg hxq]; exact ih

theorem row_get_map_self (m : MMatrix) (p : Pair) (v : ℚ)
    (h : m.any (fun e => decide (e.1 = p)) = true) :
    row_get (m.map (fun x => if x.1 = p then (p, v) else x)) p = some v := by
  induction m with
  | nil => simp at h
  | cons x t ih =>
      by_cases hx : x.1 = p
      · rw [List.map_cons, if_pos hx, row_get_cons, if_pos rfl]
      · rw [List.map_cons, if_neg hx, row_get_cons, if_neg hx]
        have h' : t.any (fun e => decide (e.1 = p)) = true := by
          simpa [List.any_cons, hx] using h
        exact ih h'

theorem row_get_append_single_self (m : MMatrix) (p : Pair) (v : ℚ)
    (h : m.any (fun e => decide (e.1 = p)) = false) :
    row_get (m ++ [(p, v)]) p = some v := by
  induction m with
  | nil => simp [row_get, List.find?]
  | cons x t ih =>
      have hx : ¬ x.1 = p := by
        intro hc; rw [List.any_cons, hc] at h; simp at h
      rw [List.cons_append, row_get_cons, if_neg hx]
      have h' : t.any (fun e => decide (e.1 = p)) = false := by
        simpa [List.any_cons, hx] using h
      exact ih h'

theorem row_get_append_single_other (m : MMatrix) (p q : Pair) (v : ℚ)
    (hq : q ≠ p) :
    row_get (m ++ [(p, v)]) q = row_get m q := by
  induction m with
  | nil =>
      have hpq : ¬ p = q := fun h => hq h.symm
      simp [row_get, List.find?, hpq]
  | cons x t ih =>
      rw [List.cons_append, row_get_cons, row_get_cons]
      by_cases hxq : x.1 = q
      · rw [if_pos hxq, if_pos hxq]
      · rw [if_neg hxq, if_neg hxq]; exact ih

theorem row_get_row_set (m : MMatrix) (p q : Pair) (v : ℚ) :
    row_get (row_set m p v) q = if q = p then some v else row_get m q := by
  rw [row_set]
  by_cases hany : m.any (fun e => decide (e.1 = p)) = true
  · rw [if_pos hany]
    by_cases hq : q = p
    · subst hq; rw [if_pos rfl]; exact row_get_map_self m q v hany
    · rw [if_neg hq]; exact row_get_map_other m p q v hq
  · rw [if_neg hany]
    by_cases hq : q = p
    · subst hq
      rw [if_pos rfl]
      exact row_get_append_single_self m q v (Bool.eq_false_iff.mpr hany)
    · rw [if_neg hq]; exact row_get_append_single_other m p q v hq

theorem table_get_cons (e : String × MMatrix) (t : MTable) (k : String) :
    table_get (e :: t) k = if e.1 = k then some e.2 else table_get t k := by
  by_cases h : e.1 = k <;> simp [table_get, List.find?, h]

theorem table_get_table_set (t : MTable) (k k2 : String) (p : Pair) (v : ℚ) :
    table_get (table_set t k p v) k2
      = if k2 = k then (table_get t k).map (fun m => row_set m p v)
        else table_get t k2 := by
  induction t with
  | nil => by_cases hk2 : k2 = k <;> simp [table_set, table_get, List.find?, hk2]
  | cons e t ih =>
      rw [show table_set (e :: t) k p v
          = (if e.1 = k then (e.1, row_set e.2 p v) else e) :: table_set t k p v
        from rfl]
      by_cases he : e.1 = k <;> by_cases hek2 : e.1 = k2
      · have hk2 : k2 = k := by rw [← hek2, he]
        subst hk2
        simp [he, table_get_cons]
      · have hk2 : ¬ k2 = k := fun h => hek2 (he.trans h.symm)
        have hkk2 : ¬ k = k2 := fun h => hk2 h.symm
        simp [he, hek2, hk2, hkk2, table_get_cons, ih]
      · have hk2 : ¬ k2 = k := fun h => he (hek2.trans h)
        have hkk2 : ¬ k = k2 := fun h => hk2 h.symm
        simp [he, hek2, hk2, hkk2, table_get_cons, ih]
      · simp [he, hek2, table_get_cons, ih]

theorem table_set_keys (t : MTable) (k : String) (p : Pair) (v : ℚ) :
    (table_set t k p v).map (fun e => e.1) = t.map (fun e => e.1) := by
  rw [table_set, List.map_map]
  exact List.map_congr_left (fun e _ => by by_cases h : e.1 = k <;> simp [h])

theorem table_get_isSome_of_mem (t : MTable) (k : String)
    (h : k ∈ t.map (fun e => e.1)) : ∃ m, table_get t k = some m := by
  induction t with
  | nil => simp at h
  | cons e t ih =>
      by_cases he : e.1 = k
      · exact ⟨e.2, by rw [table_get_cons, if_pos he]⟩
      · have h' : k ∈ t.map (fun e => e.1) := by
          rcases List.mem_cons.mp h with h | h
          · exact absurd h.symm he
          · exact h
        rcases ih h' with ⟨m, hm⟩
        exact ⟨m, by rw [table_get_cons, if_neg he]; exact hm⟩

theorem cell_get_table_set_other_row (t : MTable) (k k2 : String)
    (p q : Pair) (v : ℚ) (hq : q ≠ p) :
    cell_get (table_set t k p v) k2 q = cell_get t k2 q := by
  rw [cell_get, cell_get, table_get_table_set]
  by_cases hk2 : k2 = k
  · subst hk2
    cases htg : table_get t k2 with
    | none => simp [htg]
    | some m => simp [htg, row_get_row_set, if_neg hq]
  · rw [if_neg hk2]

theorem cell_get_table_set_self (t : MTable) (k : String) (p : Pair) (v : ℚ)
    (h : ∃ m, table_get t k = some m) :
    cell_get (table_set t k p v) k p = some v := by
  rcases h with ⟨m, hm⟩
  rw [cell_get, table_get_table_set, if_pos rfl, hm]
  simp [row_get_row_set]

theorem table_get_untouched (t : MTable) (k k2 : String) (p : Pair) (v : ℚ)
    (h : k2 ≠ k) :
    table_get (table_set t k p v) k2 = table_get t k2 := by
  rw [table_get_table_set, if_neg h]

theorem write_stats_cons (st : Stats) (p : Pair) (f : String) (fs : List String)
    (tbl : MTable) (v : ℚ) (hvf : series_get st f = some v) :
    write_stats p st (f :: fs) tbl
      = write_stats p st fs (table_set tbl (field_trans f) p v) := by
  simp [write_stats, List.foldlM, hvf]

theorem write_stats_spec (st : Stats) (p : Pair) :
    ∀ (F : List String) (tbl : MTable),
      (∀ f ∈ F, (series_get st f).isSome = true) →
      ((F.map field_trans).Nodup) →
      ∃ tbl', write_stats p st F tbl = some tbl' ∧
        tbl'.map (fun e => e.1) = tbl.map (fun e => e.1) ∧
        (∀ k, k ∉ F.map field_trans → table_get tbl' k = table_get tbl k) ∧
        (∀ k q, q ≠ p → cell_get tbl' k q = cell_get tbl k q) ∧
        (∀ f ∈ F, (∃ m, table_get tbl (field_trans f) = some m) →
          cell_get tbl' (field_trans f) p = series_get st f) := by
  intro F
  induction F with
  | nil =>
      intro tbl hv hinj
      exact ⟨tbl, rfl, rfl, fun _ _ => rfl, fun _ _ _ => rfl,
        fun f hf => absurd hf (List.not_mem_nil f)⟩
  | cons f fs ih =>
      intro tbl hv hinj
      obtain ⟨v, hvf⟩ : ∃ v, series_get st f = some v :=
        Option.isSome_iff_exists.mp (hv f (List.mem_cons_self f fs))
      have hftf : field_trans f ∉ fs.map field_trans :=
        (List.nodup_cons.mp (by simpa using hinj)).1
      have hinj' : (fs.map field_trans).Nodup :=
        (List.nodup_cons.mp (by simpa using hinj)).2
      have hv' : ∀ g ∈ fs, (series_get st g).isSome = true :=
        fun g hg => hv g (List.mem_cons_of_mem f hg)
      obtain ⟨tbl', hfold, hkeys, huntouched, hrows, hcells⟩ :=
        ih (table_set tbl (field_trans f) p v) hv' hinj'
      refine ⟨tbl', (write_stats_cons st p f fs tbl v hvf).trans hfold,
        hkeys.trans (table_set_keys tbl (field_trans f) p v), ?_, ?_, ?_⟩
      · intro k hk
        have hk1 : k ≠ field_trans f := fun h => hk (by simp [h])
        have hk2 : k ∉ fs.map field_trans := fun h => hk (by simp [h])
        rw [huntouched k hk2, table_get_untouched _ _ _ _ _ hk1]
      · intro k q hq
        rw [hrows k q hq, cell_get_table_set_other_row _ _ _ _ _ _ hq]
      · intro g hg hex
        rcases List.mem_cons.mp hg with hgf | hgfs
        · subst hgf
          have h1 : cell_get tbl' (field_trans g) p
              = cell_get (table_set tbl (field_trans g) p v) (field_trans g) p := by
            rw [cell_get, cell_get, huntouched (field_trans g) hftf]
          rw [h1, cell_get_table_set_self tbl (field_trans g) p v hex, hvf]
        · apply hcells g hgfs
          rcases hex with ⟨m, hm⟩
          by_cases hgf2 : field_trans g = field_trans f
          · exact absurd (hgf2 ▸ List.mem_map_of_mem field_trans hgfs) hftf
          · exact ⟨m, by rw [table_get_untouched _ _ _ _ _ hgf2, hm]⟩

theorem sweep_fold_cons (F : List String) (p : Pair) (st : Stats)
    (rest : List (Pair × Stats)) (tbl tbl1 : MTable)
    (h : write_stats p st F tbl = some tbl1) :
    ((p, st) :: rest).foldlM
        (fun tbl pst => write_stats pst.1 pst.2 F tbl) tbl
      = rest.foldlM (fun tbl pst => write_stats pst.1 pst.2 F tbl) tbl1 := by
  simp [List.foldlM, h]

theorem extract_fold_spec (F : List String)
    (hinj : (F.map field_trans).Nodup) :
    ∀ (items : List (Pair × Stats)) (tbl : MTable),
      (items.map (fun e => e.1)).Nodup →
      (∀ e ∈ items, ∀ f ∈ F, (series_get e.2 f).isSome = true) →
      (∀ f ∈ F, field_trans f ∈ tbl.map (fun e => e.1)) →
      ∃ tbl', items.foldlM
          (fun tbl pst => write_stats pst.1 pst.2 F tbl) tbl = some tbl' ∧
        tbl'.map (fun e => e.1) = tbl.map (fun e => e.1) ∧
        (∀ q, q ∉ items.map (fun e => e.1) →
          ∀ k, cell_get tbl' k q = cell_get tbl k q) ∧
        (∀ e ∈ items, ∀ f ∈ F,
          cell_get tbl' (field_trans f) e.1 = series_get e.2 f) := by
  intro items
  induction items with
  | nil =>
      intro tbl hnd hv hkeys
      exact ⟨tbl, rfl, rfl, fun _ _ _ => rfl,
        fun e he => absurd he (List.not_mem_nil e)⟩
  | cons pst rest ih =>
      intro tbl hnd hv hkeys
      have hp_rest : pst.1 ∉ rest.map (fun e => e.1) :=
        (List.nodup_cons.mp (by simpa using hnd)).1
      have hnd' : (rest.map (fun e => e.1)).Nodup :=
        (List.nodup_cons.mp (by simpa using hnd)).2
      have hv_head : ∀ f ∈ F, (series_get pst.2 f).isSome = true :=
        hv pst (List.mem_cons_self pst rest)
      obtain ⟨tbl1, hw, hk1, huntouched1, hrows1, hcells1⟩ :=
        write_stats_spec pst.2 pst.1 F tbl hv_head hinj
      have hkeys1 : ∀ f ∈ F, field_trans f ∈ tbl1.map (fun e => e.1) := by
        intro f hf; rw [hk1]; exact hkeys f hf
      obtain ⟨tbl', hfold, hk2, hrows2, hcells2⟩ :=
        ih tbl1 hnd' (fun e he f hf => hv e (List.mem_cons_of_mem pst he) f hf)
          hkeys1
      refine ⟨tbl', (sweep_fold_cons F pst.1 pst.2 rest tbl tbl1 hw).trans hfold,
        hk2.trans hk1, ?_, ?_⟩
      · intro q hq k
        have hq_head : q ≠ pst.1 := by
          intro hc; exact hq (by simp [hc])
        have hq_rest : q ∉ rest.map (fun e => e.1) := by
          intro hc; exact hq (by simp [hc])
        rw [hrows2 q hq_rest k, hrows1 k q hq_head]
      · intro e he f hf
        rcases List.mem_cons.mp he with rfl | he_rest
        · rw [hrows2 e.1 hp_rest (field_trans f)]
          exact hcells1 f hf
            (table_get_isSome_of_mem tbl (field_trans f) (hkeys f hf))
        · exact hcells2 e he_rest f hf

theorem pydict_keys_of_nodup : ∀ (l : List String), l.Nodup → pydict_keys l = l := by
  intro l
  induction l using pydict_keys.induct with
  | case1 => intro h; simp [pydict_keys]
  | case2 k ks ih =>
      intro h
      have hk : k ∉ ks := (List.nodup_cons.mp h).1
      have hks : ks.Nodup := (List.nodup_cons.mp h).2
      have hfil : ks.filter (fun x => decide (x ≠ k)) = ks :=
        List.filter_eq_self.mpr
          (fun a ha => decide_eq_true (fun hc => hk (hc ▸ ha)))
      rw [pydict_keys, hfil]
      rw [hfil] at ih
      rw [ih hks]

theorem sweep_map_fst (b : Pair → Stats) (pairs : List Pair) :
    (sweep b pairs).map (fun e => e.1) = pairs := by
  rw [sweep, List.map_map]
  exact (List.map_congr_left fun p _ => rfl).trans (List.map_id pairs)

theorem sweep_getLast (b : Pair → Stats) (pairs : List Pair) (hne : pairs ≠ []) :
    (sweep b pairs).getLast?
      = some (pairs.getLast hne, b (pairs.getLast hne)) := by
  rw [sweep, List.getLast?_map, List.getLast?_eq_getLast pairs hne]
  rfl

/-- C5: after metric extraction over a non-empty grid of distinct pairs
whose stats tables share the metric set of the last-evaluated pair (and
whose normalized names do not collide), the table holds exactly one
matrix per metric name found in the last-evaluated pair's
summary-statistics table, and for every evaluated pair and every such
metric the matrix of that metric has an entry at the row indexed by that
pair holding the scalar value of that pair for the metric. -/
theorem C5_extract_stats (b : Pair → Stats) (pairs : List Pair)
    (hne : pairs ≠ []) (hnd : pairs.Nodup)
    (hinj : (((b (pairs.getLast hne)).map (fun e => e.1)).map field_trans).Nodup)
    (hval : ∀ p ∈ pairs, ∀ f ∈ (b (pairs.getLast hne)).map (fun e => e.1),
        (series_get (b p) f).isSome = true) :
    ∃ tbl, extract_stats (sweep b pairs) = some tbl ∧
      tbl.map (fun e => e.1)
        = ((b (pairs.getLast hne)).map (fun e => e.1)).map field_trans ∧
      ∀ p ∈ pairs, ∀ f ∈ (b (pairs.getLast hne)).map (fun e => e.1),
        ∃ m, table_get tbl (field_trans f) = some m ∧
          row_get m p = series_get (b p) f := by
  have hFnd : ((b (pairs.getLast hne)).map (fun e => e.1)).Nodup :=
    hinj.of_map
  have hkeys_eq : pydict_keys
      ((pydict_keys ((b (pairs.getLast hne)).map (fun e => e.1))).map field_trans)
      = ((b (pairs.getLast hne)).map (fun e => e.1)).map field_trans := by
    rw [pydict_keys_of_nodup _ hFnd, pydict_keys_of_nodup _ hinj]
  have hinit_keys :
      ((((b (pairs.getLast hne)).map (fun e => e.1)).map field_trans).map
          (fun k => (k, ([] : MMatrix)))).map (fun e => e.1)
        = ((b (pairs.getLast hne)).map (fun e => e.1)).map field_trans := by
    rw [List.map_map]
    exact (List.map_congr_left fun k _ => rfl).trans (List.map_id _)
  have hkeys_init : ∀ f ∈ (b (pairs.getLast hne)).map (fun e => e.1),
      field_trans f ∈ ((((b (pairs.getLast hne)).map (fun e => e.1)).map
          field_trans).map (fun k => (k, ([] : MMatrix)))).map (fun e => e.1) := by
    intro f hf
    rw [hinit_keys]
    exact List.mem_map_of_mem field_trans hf
  have hitems_nd : ((sweep b pairs).map (fun e => e.1)).Nodup := by
    rw [sweep_map_fst]; exact hnd
  have hv_items : ∀ e ∈ sweep b pairs,
      ∀ f ∈ (b (pairs.getLast hne)).map (fun e => e.1),
      (series_get e.2 f).isSome = true := by
    intro e he f hf
    rcases List.mem_map.mp he with ⟨p, hp, rfl⟩
    exact hval p hp f hf
  obtain ⟨tbl, hfold, hkeys, hrowsp, hcells⟩ :=
    extract_fold_spec ((b (pairs.getLast hne)).map (fun e => e.1)) hinj
      (sweep b pairs)
      ((((b (pairs.getLast hne)).map (fun e => e.1)).map field_trans).map
        (fun k => (k, ([] : MMatrix))))
      hitems_nd hv_items hkeys_init
  refine ⟨tbl, ?_, hkeys.trans hinit_keys, ?_⟩
  · rw [extract_stats, sweep_getLast b pairs hne]
    simp only [Option.bind_eq_bind, Option.some_bind]
    rw [hkeys_eq]
    exact hfold
  · intro p hp f hf
    obtain ⟨m, hm⟩ := table_get_isSome_of_mem tbl (field_trans f) (by
      rw [hkeys.trans hinit_keys]
      exact List.mem_map_of_mem field_trans hf)
    refine ⟨m, hm, ?_⟩
    have hc := hcells (p, b p) (by
      rw [sweep]
      exact List.mem_map_of_mem (fun p => (p, b p)) hp) f hf
    rw [cell_get, hm] at hc
    simpa using hc

/-- Witness for C5 at a concrete two-pair, two-metric grid. -/
theorem C5_extract_stats_witness :
    ∃ tbl, extract_stats (sweep
        (fun _ => [("Annual return", (2 : ℚ)), ("Sharpe ratio", 3)])
        [(.i 1, .i 2), (.i 3, .i 4)]) = some tbl ∧
      tbl.map (fun e => e.1)
        = (((fun (_ : Pair) => [("Annual return", (2 : ℚ)), ("Sharpe ratio", 3)])
              (([(.i 1, .i 2), (.i 3, .i 4)] : List Pair).getLast (by decide))).map
            (fun e => e.1)).map field_trans ∧
      ∀ p ∈ ([(.i 1, .i 2), (.i 3, .i 4)] : List Pair),
        ∀ f ∈ ((fun (_ : Pair) => [("Annual return", (2 : ℚ)), ("Sharpe ratio", 3)])
              (([(.i 1, .i 2), (.i 3, .i 4)] : List Pair).getLast (by decide))).map
            (fun e => e.1),
        ∃ m, table_get tbl (field_trans f) = some m ∧
          row_get m p = series_get
            ((fun (_ : Pair) => [("Annual return", (2 : ℚ)), ("Sharpe ratio", 3)]) p) f :=
  C5_extract_stats
    (fun _ => [("Annual return", (2 : ℚ)), ("Sharpe ratio", 3)])
    [(.i 1, .i 2), (.i 3, .i 4)] (by decide) (by decide) (by decide)
    (by decide)

end Optimizer
